import Mathlib

/-!
Verification development for the rune repository's two core subsystems:
the runtime value-access discipline (crates/runestick/src/access.rs) and
the IR constant evaluator (crates/rune/src/compile/ir/eval.rs).

The access counter is one signed machine word; the source uses `isize`
with wrapping arithmetic, which we model as mathematical integers
normalised into the 64-bit signed range at every wrapping operation.
-/

/-- Largest 64-bit signed machine word, `isize::max_value()` on a 64-bit
platform (the source's `TAKEN` flag equals this value). -/
def isizeMax : Int := 2 ^ 63 - 1

/-- Smallest 64-bit signed machine word. -/
def isizeMin : Int := -(2 ^ 63)

/-- Wrapping normalisation into the 64-bit signed range, as Rust
`wrapping_add` / `wrapping_sub` behave on a 64-bit `isize`. -/
def wrap64 (x : Int) : Int := (x + 2 ^ 63) % 2 ^ 64 - 2 ^ 63

theorem wrap64_eq_self (x : Int) (hlo : -(2 ^ 63) ≤ x) (hhi : x ≤ 2 ^ 63 - 1) :
    wrap64 x = x := by
  unfold wrap64
  omega

namespace Access

/-- Flag used to mark access as taken: `const TAKEN: isize = isize::max_value()`. -/
def TAKEN : Int := isizeMax

/-- `Access::shared` from access.rs: `let n = state.wrapping_sub(1); if n >= 0
then Err(Snapshot(state)) else set n`.  The error payload is the snapshot of
the pre-attempt state; the success payload is the new counter value. -/
def shared (state : Int) : Except Int Int :=
  if 0 ≤ wrap64 (state - 1) then .error state else .ok (wrap64 (state - 1))

/-- `Access::exclusive` from access.rs: `let n = state.wrapping_add(1); if
n != 1 then Err(Snapshot(state)) else set n`. -/
def exclusive (state : Int) : Except Int Int :=
  if wrap64 (state + 1) ≠ 1 then .error state else .ok (wrap64 (state + 1))

/-- `Access::take` from access.rs: `if state != 0 then Err(Snapshot(state))
else set isize::max_value()`. -/
def take (state : Int) : Except Int Int :=
  if state ≠ 0 then .error state else .ok TAKEN

/-- `Access::release_shared`: `self.0.set(self.0.get().wrapping_add(1))`. -/
def release_shared (state : Int) : Int := wrap64 (state + 1)

/-- `Access::release_exclusive`: `self.0.set(self.0.get().wrapping_sub(1))`. -/
def release_exclusive (state : Int) : Int := wrap64 (state - 1)

/-- `Access::release_take`: reads the counter (debug-asserting it is `TAKEN`)
and sets it to `0`. -/
def release_take (_state : Int) : Int := 0

end Access

/-- `impl fmt::Display for Snapshot` from access.rs, arm for arm:
`0`, `1`, `TAKEN`, `n if n < 0`, then the catch-all that prints
`invalidly marked ({})` with the value interpolated.  The `-n` of the
negative arm is an `isize` negation: at `n = isize::MIN` it overflows and
wraps back to `isize::MIN` (release-build semantics, which we model;
debug builds would panic on the overflow). -/
def Snapshot.display (n : Int) : String :=
  if n = 0 then "fully accessible"
  else if n = 1 then "exclusively accessed"
  else if n = Access.TAKEN then "moved"
  else if n < 0 then "shared by " ++ toString (wrap64 (-n))
  else "invalidly marked (" ++ toString n ++ ")"

/-- State of one shared value cell together with the ghost bookkeeping of
outstanding guards: the concrete counter word plus how many shared guards,
whether an exclusive guard, and whether a take guard are alive. -/
structure CellState where
  counter : Int
  sharedCount : Nat
  exclusive : Bool
  taken : Bool

/-- One event on a cell: a successful borrow/take (guarded by the very
success condition of the corresponding `Access` operation on the concrete
counter) or the drop of an outstanding guard (running the corresponding
`release_*` on the counter, as the `Drop` impls of `RawBorrowedRef`,
`RawBorrowedMut` and `RawTakeGuard` do). -/
inductive CellStep : CellState → CellState → Prop where
  | borrowShared {c : CellState} {n : Int} :
      Access.shared c.counter = .ok n →
      CellStep c { c with counter := n, sharedCount := c.sharedCount + 1 }
  | borrowExclusive {c : CellState} {n : Int} :
      Access.exclusive c.counter = .ok n →
      CellStep c { c with counter := n, exclusive := true }
  | takeValue {c : CellState} {n : Int} :
      Access.take c.counter = .ok n →
      CellStep c { c with counter := n, taken := true }
  | dropShared {c : CellState} :
      0 < c.sharedCount →
      CellStep c { c with counter := Access.release_shared c.counter,
                          sharedCount := c.sharedCount - 1 }
  | dropExclusive {c : CellState} :
      c.exclusive = true →
      CellStep c { c with counter := Access.release_exclusive c.counter,
                          exclusive := false }
  | dropTake {c : CellState} :
      c.taken = true →
      CellStep c { c with counter := Access.release_take c.counter,
                          taken := false }

/-- A cell starts with counter `0` and no outstanding guards
(`Access::new`). -/
def initCell : CellState := ⟨0, 0, false, false⟩

/-- The cell states reachable from a fresh cell by borrow/take/drop events. -/
inductive CellReachable : CellState → Prop where
  | init : CellReachable initCell
  | step {c c' : CellState} : CellReachable c → CellStep c c' → CellReachable c'

/-- The magnitude encoded in the counter word: `TAKEN` encodes one
outstanding take guard, any other value encodes its absolute value many
guards (`1` one exclusive guard, `-n` means `n` shared guards). -/
def encodedMagnitude (c : Int) : Nat :=
  if c = Access.TAKEN then 1 else c.natAbs

/-- Full inductive invariant of a cell: the ghost guard counts determine the
concrete counter word exactly. -/
def CellInv (c : CellState) : Prop :=
  (c.taken = true → c.counter = Access.TAKEN ∧ c.sharedCount = 0 ∧ c.exclusive = false) ∧
  (c.exclusive = true → c.counter = 1 ∧ c.sharedCount = 0 ∧ c.taken = false) ∧
  (c.taken = false → c.exclusive = false →
    c.counter = -(c.sharedCount : Int) ∧ (c.sharedCount : Int) ≤ 2 ^ 63)

theorem shared_ok_iff (state n : Int) (hlo : -(2 ^ 63) ≤ state) (hhi : state ≤ 2 ^ 63 - 1) :
    Access.shared state = .ok n ↔ state ≤ 0 ∧ state ≠ -(2 ^ 63) ∧ n = state - 1 := by
  unfold Access.shared wrap64
  split_ifs with hcond
  · constructor
    · intro h
      exact h.elim
    · intro h
      obtain ⟨h1, h2, h3⟩ := h
      exfalso
      omega
  · constructor
    · intro h
      simp only [Except.ok.injEq] at h
      refine ⟨by omega, by omega, by omega⟩
    · intro h
      obtain ⟨h1, h2, h3⟩ := h
      simp only [Except.ok.injEq]
      omega

theorem shared_error (state : Int) (hlo : -(2 ^ 63) ≤ state) (hhi : state ≤ 2 ^ 63 - 1)
    (h : ¬(state ≤ 0 ∧ state ≠ -(2 ^ 63))) : Access.shared state = .error state := by
  unfold Access.shared wrap64
  split_ifs with hcond
  · rfl
  · exfalso
    omega

theorem exclusive_ok_iff (state n : Int) (hlo : -(2 ^ 63) ≤ state) (hhi : state ≤ 2 ^ 63 - 1) :
    Access.exclusive state = .ok n ↔ state = 0 ∧ n = 1 := by
  unfold Access.exclusive wrap64
  split_ifs with hcond
  · constructor
    · intro h
      exact h.elim
    · intro h
      obtain ⟨h1, h2⟩ := h
      exfalso
      omega
  · constructor
    · intro h
      simp only [Except.ok.injEq] at h
      constructor <;> omega
    · intro h
      obtain ⟨h1, h2⟩ := h
      simp only [Except.ok.injEq]
      omega

theorem exclusive_error (state : Int) (hlo : -(2 ^ 63) ≤ state) (hhi : state ≤ 2 ^ 63 - 1)
    (h : state ≠ 0) : Access.exclusive state = .error state := by
  unfold Access.exclusive wrap64
  split_ifs with hcond
  · rfl
  · exfalso
    omega

theorem take_ok_iff (state n : Int) :
    Access.take state = .ok n ↔ state = 0 ∧ n = 2 ^ 63 - 1 := by
  unfold Access.take Access.TAKEN isizeMax
  split_ifs with hcond
  · constructor
    · intro h
      exact h.elim
    · intro h
      exact absurd h.1 hcond
  · constructor
    · intro h
      simp only [Except.ok.injEq] at h
      exact ⟨by omega, by omega⟩
    · intro h
      obtain ⟨h1, h2⟩ := h
      simp only [Except.ok.injEq]
      omega

theorem take_error (state : Int) (h : state ≠ 0) : Access.take state = .error state := by
  unfold Access.take
  rw [if_pos h]

theorem cellInv_init : CellInv initCell := by
  refine ⟨?_, ?_, ?_⟩ <;> simp [initCell]

theorem cellInv_step {c c' : CellState} (hinv : CellInv c) (hstep : CellStep c c') :
    CellInv c' := by
  obtain ⟨cc, cs, ce, ct⟩ := c
  obtain ⟨htk, hex, hsh⟩ := hinv
  simp only at htk hex hsh
  have hcases : (ct = true ∧ cc = 2 ^ 63 - 1 ∧ cs = 0 ∧ ce = false) ∨
      (ct = false ∧ ce = true ∧ cc = 1 ∧ cs = 0) ∨
      (ct = false ∧ ce = false ∧ cc = -(cs : Int) ∧ (cs : Int) ≤ 2 ^ 63) := by
    cases ht : ct with
    | true =>
      obtain ⟨h1, h2, h3⟩ := htk ht
      exact Or.inl ⟨rfl, by simpa [Access.TAKEN, isizeMax] using h1, h2, h3⟩
    | false =>
      cases he : ce with
      | true =>
        obtain ⟨h1, h2, h3⟩ := hex he
        exact Or.inr (Or.inl ⟨rfl, rfl, h1, h2⟩)
      | false =>
        obtain ⟨h1, h2⟩ := hsh ht he
        exact Or.inr (Or.inr ⟨rfl, rfl, h1, h2⟩)
  have hlo : -(2 ^ 63) ≤ cc := by
    rcases hcases with ⟨_, h, _, _⟩ | ⟨_, _, h, _⟩ | ⟨_, _, h, hb⟩ <;> omega
  have hhi : cc ≤ 2 ^ 63 - 1 := by
    rcases hcases with ⟨_, h, _, _⟩ | ⟨_, _, h, _⟩ | ⟨_, _, h, hb⟩ <;> omega
  cases hstep with
  | borrowShared h =>
    rename_i n
    rw [shared_ok_iff cc n hlo hhi] at h
    obtain ⟨hle, hne, hn⟩ := h
    rcases hcases with ⟨ht, hc, h0, he⟩ | ⟨ht, he, hc, h0⟩ | ⟨ht, he, hc, hb⟩
    · exfalso
      omega
    · exfalso
      omega
    · subst ht
      subst he
      refine ⟨by simp, by simp, ?_⟩
      intro _ _
      simp only
      constructor
      · push_cast
        omega
      · push_cast
        omega
  | borrowExclusive h =>
    rename_i n
    rw [exclusive_ok_iff cc n hlo hhi] at h
    obtain ⟨hc0, hn⟩ := h
    have hcs0 : cs = 0 := by
      rcases hcases with ⟨ht, hc, h0, he⟩ | ⟨ht, he, hc, h0⟩ | ⟨ht, he, hc, hb⟩ <;> omega
    have hct0 : ct = false := by
      rcases hcases with ⟨ht, hc, h0, he⟩ | ⟨ht, he, hc, h0⟩ | ⟨ht, he, hc, hb⟩
      · exfalso
        omega
      · exact ht
      · exact ht
    subst hct0
    refine ⟨by simp, ?_, by simp⟩
    intro _
    simp only
    exact ⟨by omega, hcs0, trivial⟩
  | takeValue h =>
    rename_i n
    rw [take_ok_iff cc n] at h
    obtain ⟨hc0, hn⟩ := h
    have hcs0 : cs = 0 := by
      rcases hcases with ⟨ht, hc, h0, he⟩ | ⟨ht, he, hc, h0⟩ | ⟨ht, he, hc, hb⟩ <;> omega
    have hce0 : ce = false := by
      rcases hcases with ⟨ht, hc, h0, he⟩ | ⟨ht, he, hc, h0⟩ | ⟨ht, he, hc, hb⟩
      · exact he
      · exfalso
        omega
      · exact he
    subst hce0
    refine ⟨?_, by simp, by simp⟩
    intro _
    simp only
    refine ⟨by simp [hn, Access.TAKEN, isizeMax], hcs0, trivial⟩
  | dropShared hpos =>
    simp only at hpos
    have hsh3 : ct = false ∧ ce = false ∧ cc = -(cs : Int) ∧ (cs : Int) ≤ 2 ^ 63 := by
      rcases hcases with ⟨ht, hc, h0, he⟩ | ⟨ht, he, hc, h0⟩ | ⟨ht, he, hc, hb⟩
      · exfalso
        omega
      · exfalso
        omega
      · exact ⟨ht, he, hc, hb⟩
    obtain ⟨ht, he, hc, hb⟩ := hsh3
    subst ht
    subst he
    refine ⟨by simp, by simp, ?_⟩
    intro _ _
    simp only
    unfold Access.release_shared
    rw [hc]
    have hw : wrap64 (-(cs : Int) + 1) = -(cs : Int) + 1 := by
      apply wrap64_eq_self <;> omega
    rw [hw]
    constructor
    · omega
    · omega
  | dropExclusive hexcl =>
    simp only at hexcl
    obtain ⟨hc, hcs0, hct0⟩ := hex hexcl
    subst hct0
    refine ⟨by simp, by simp, ?_⟩
    intro _ _
    simp only
    unfold Access.release_exclusive
    rw [hc, hcs0]
    constructor
    · rw [wrap64_eq_self] <;> norm_num
    · norm_num
  | dropTake htaken =>
    simp only at htaken
    obtain ⟨hc, hcs0, hce0⟩ := htk htaken
    subst hce0
    refine ⟨by simp, by simp, ?_⟩
    intro _ _
    simp only
    unfold Access.release_take
    rw [hcs0]
    constructor
    · norm_num
    · norm_num

theorem cellReachable_inv {c : CellState} (h : CellReachable c) : CellInv c := by
  induction h with
  | init => exact cellInv_init
  | step _ hstep ih => exact cellInv_step ih hstep

/-- Claim C4, counterexample: at the counter state `isize::MIN` the claim
says a shared borrow must succeed (the state is ≤ 0 and ≠ MAX), but
`Access::shared`'s wrapping decrement wraps `MIN - 1` to `MAX ≥ 0` and
fails, returning the pre-attempt snapshot. -/
theorem c4_shared_min_cx :
    Access.shared isizeMin = .error isizeMin ∧ isizeMin ≤ 0 ∧ isizeMin ≠ isizeMax := by
  refine ⟨?_, by decide, by decide⟩
  rfl

/-- Claim C4 (amended): within the 64-bit signed range, a shared borrow
succeeds iff the counter is ≤ 0 and ≠ `isize::MIN` (not ≠ MAX), an
exclusive borrow succeeds iff it is 0, a take succeeds iff it is 0 and
sets the counter to `TAKEN`, and every failure returns the pre-attempt
state as the snapshot. -/
theorem c4_borrow_conditions (s : Int) (hlo : isizeMin ≤ s) (hhi : s ≤ isizeMax) :
    (s ≤ 0 ∧ s ≠ isizeMin → Access.shared s = .ok (s - 1)) ∧
    (¬(s ≤ 0 ∧ s ≠ isizeMin) → Access.shared s = .error s) ∧
    (s = 0 → Access.exclusive s = .ok 1) ∧
    (s ≠ 0 → Access.exclusive s = .error s) ∧
    (s = 0 → Access.take s = .ok Access.TAKEN) ∧
    (s ≠ 0 → Access.take s = .error s) := by
  simp only [isizeMin, isizeMax] at hlo hhi
  refine ⟨?_, ?_, ?_, ?_, ?_, ?_⟩
  · intro h
    unfold isizeMin at h
    rw [shared_ok_iff s (s - 1) hlo hhi]
    exact ⟨h.1, h.2, rfl⟩
  · intro h
    unfold isizeMin at h
    exact shared_error s hlo hhi h
  · intro h
    rw [exclusive_ok_iff s 1 hlo hhi]
    exact ⟨h, rfl⟩
  · intro h
    exact exclusive_error s hlo hhi h
  · intro h
    rw [take_ok_iff]
    exact ⟨h, rfl⟩
  · intro h
    exact take_error s h

/-- Witness for C4: at counter `-1` a shared borrow succeeds and moves the
counter to `-2`, while an exclusive borrow and a take both fail with the
pre-attempt snapshot. -/
theorem c4_borrow_conditions_witness :
    Access.shared (-1) = .ok (-1 - 1) ∧ Access.exclusive (-1) = .error (-1) ∧
    Access.take (-1) = .error (-1) := by
  have h := c4_borrow_conditions (-1) (by decide) (by decide)
  exact ⟨h.1 (by decide), h.2.2.2.1 (by decide), h.2.2.2.2.2 (by decide)⟩

/-- Claim C5: in every reachable cell state, the outstanding shared guards
plus one if exclusively borrowed plus one if taken equal the magnitude
encoded in the counter; dropping a shared guard moves the counter one unit
toward 0, dropping an exclusive guard moves it from 1 back to 0, and
dropping a take guard resets it from `TAKEN` to 0. -/
theorem c5_guard_counter_invariant (c : CellState) (h : CellReachable c) :
    (c.sharedCount + (if c.exclusive then 1 else 0) + (if c.taken then 1 else 0)
        = encodedMagnitude c.counter) ∧
    (0 < c.sharedCount →
      Access.release_shared c.counter = c.counter + 1 ∧ c.counter + 1 ≤ 0) ∧
    (c.exclusive = true → c.counter = 1 ∧ Access.release_exclusive c.counter = 0) ∧
    (c.taken = true → c.counter = Access.TAKEN ∧ Access.release_take c.counter = 0) := by
  have hinv := cellReachable_inv h
  obtain ⟨cc, cs, ce, ct⟩ := c
  obtain ⟨htk, hex, hsh⟩ := hinv
  simp only at htk hex hsh ⊢
  cases ht : ct with
  | true =>
    obtain ⟨h1, h2, h3⟩ := htk ht
    subst h3
    refine ⟨?_, ?_, ?_, ?_⟩
    · simp [h1, h2, encodedMagnitude]
    · intro hpos
      exact absurd h2 (by omega)
    · intro habs
      exact absurd habs (by simp)
    · intro _
      exact ⟨h1, rfl⟩
  | false =>
    cases he : ce with
    | true =>
      obtain ⟨h1, h2, h3⟩ := hex he
      refine ⟨?_, ?_, ?_, ?_⟩
      · simp only [he, ht, h2, h1]
        norm_num [encodedMagnitude, Access.TAKEN, isizeMax]
      · intro hpos
        exact absurd h2 (by omega)
      · intro _
        refine ⟨h1, ?_⟩
        rw [h1]
        unfold Access.release_exclusive wrap64
        omega
      · intro habs
        exact absurd habs (by simp [ht])
    | false =>
      obtain ⟨h1, h2⟩ := hsh ht he
      refine ⟨?_, ?_, ?_, ?_⟩
      · simp only [he, ht, h1]
        have hne : -(cs : Int) ≠ 2 ^ 63 - 1 := by omega
        unfold encodedMagnitude Access.TAKEN isizeMax
        rw [if_neg hne]
        simp only [Bool.false_eq_true, if_false, Int.natAbs_neg, Int.natAbs_ofNat]
        omega
      · intro hpos
        rw [h1]
        unfold Access.release_shared
        have hw : wrap64 (-(cs : Int) + 1) = -(cs : Int) + 1 := by
          apply wrap64_eq_self <;> omega
        rw [hw]
        constructor
        · rfl
        · omega
      · intro habs
        exact absurd habs (by simp [he])
      · intro habs
        exact absurd habs (by simp [ht])

/-- Witness for C5: after one successful shared borrow from a fresh cell
the counter is `-1`, the guard accounting matches, and dropping the guard
moves the counter back to `0`. -/
theorem c5_guard_counter_invariant_witness :
    (1 + (if false then 1 else 0) + (if false then 1 else 0) = encodedMagnitude (-1)) ∧
    Access.release_shared (-1) = (-1) + 1 := by
  have hshared : Access.shared (0 : Int) = .ok (-1) := by rfl
  have hstep : CellStep initCell ⟨-1, 1, false, false⟩ := CellStep.borrowShared hshared
  have h := c5_guard_counter_invariant ⟨-1, 1, false, false⟩
    (CellReachable.step CellReachable.init hstep)
  exact ⟨h.1, (h.2.1 (by decide)).1⟩

/-- Claim C9, counterexample: rendering the snapshot value `2` produces
the string with the value interpolated, not exactly the bare string the
claim states; and at the negative value `isize::MIN` the source's `isize`
negation wraps, so the rendering is `shared by -9223372036854775808`, not
the `shared by 9223372036854775808` the claim's `-n` reading demands. -/
theorem c9_invalidly_marked_cx :
    Snapshot.display 2 = "invalidly marked (2)" ∧
    Snapshot.display 2 ≠ "invalidly marked" ∧
    Snapshot.display isizeMin = "shared by -9223372036854775808" ∧
    ("shared by -9223372036854775808" : String) ≠ "shared by 9223372036854775808" := by
  refine ⟨rfl, by decide, rfl, by decide⟩

/-- Claim C9 (amended): the snapshot rendering is `fully accessible` for 0,
`exclusively accessed` for 1, `moved` for MAX, `shared by n` for a
negative value `-n` other than `isize::MIN` — at `isize::MIN` the `isize`
negation wraps and the rendering (in release builds) is
`shared by -9223372036854775808` — and `invalidly marked (n)` (with the
value interpolated) for any other positive value. -/
theorem c9_snapshot_rendering (n : Int) :
    (n = 0 → Snapshot.display n = "fully accessible") ∧
    (n = 1 → Snapshot.display n = "exclusively accessed") ∧
    (n = isizeMax → Snapshot.display n = "moved") ∧
    (isizeMin < n → n < 0 → Snapshot.display n = "shared by " ++ toString (-n)) ∧
    (Snapshot.display isizeMin = "shared by " ++ toString isizeMin) ∧
    (1 < n → n ≠ isizeMax → Snapshot.display n = "invalidly marked (" ++ toString n ++ ")") := by
  refine ⟨?_, ?_, ?_, ?_, ?_, ?_⟩
  · intro h
    subst h
    rfl
  · intro h
    subst h
    rfl
  · intro h
    subst h
    rfl
  · intro hlo hn
    unfold Snapshot.display Access.TAKEN isizeMax
    unfold isizeMin at hlo
    rw [if_neg (show ¬(n = 0) by omega), if_neg (show ¬(n = 1) by omega),
      if_neg (show ¬(n = 2 ^ 63 - 1) by omega), if_pos hn,
      wrap64_eq_self (-n) (by omega) (by omega)]
  · rfl
  · intro h1 h2
    unfold Snapshot.display Access.TAKEN isizeMax
    unfold isizeMax at h2
    rw [if_neg (show ¬(n = 0) by omega), if_neg (show ¬(n = 1) by omega),
      if_neg h2, if_neg (show ¬(n < 0) by omega)]

/-- Witness for C9: the rendering at `-3` and at `5`. -/
theorem c9_snapshot_rendering_witness :
    Snapshot.display (-3) = "shared by " ++ toString (-(-3 : Int)) ∧
    Snapshot.display 5 = "invalidly marked (" ++ toString (5 : Int) ++ ")" := by
  exact ⟨(c9_snapshot_rendering (-3)).2.2.2.1 (by decide) (by decide),
    (c9_snapshot_rendering 5).2.2.2.2.2 (by decide) (by decide)⟩

/-- Source position attached to every IR node (rune's `Span` with a start
and an end byte offset). -/
structure Span where
  start : Nat
  stop : Nat
deriving DecidableEq

/-- A compile error of the IR evaluator: a span plus a message, as built by
`IrError::msg` / `IrError::custom`. -/
structure IrError where
  span : Span
  message : String
deriving DecidableEq

/-- `IrError::msg(spanned, message)`. -/
def IrError.msg (span : Span) (message : String) : IrError := ⟨span, message⟩

/-- An `f64` payload kept abstract as its bit pattern; the evaluator never
inspects it, all float arithmetic is routed through the evaluation
context. -/
structure F64 where
  bits : Nat
deriving DecidableEq

/-- `IrValue` from the ir module: the compile-time value sum type.  The
`Shared` cells around strings and containers are elided: during constant
evaluation no guard is held across an evaluator step, so every borrow the
evaluator performs on them succeeds (see `add_strings` in eval.rs). -/
inductive IrValue where
  | unit
  | bool (b : Bool)
  | integer (i : Int)
  | float (f : F64)
  | string (s : String)
  | vec (items : List IrValue)
  | tuple (items : List IrValue)
  | object (entries : List (String × IrValue))

/-- One lexical frame of the interpreter scope stack: bindings from names
to values. -/
abbrev Frame := List (String × IrValue)

/-- One component of a dotted target path: a named field of an object or an
index into a vector/tuple. -/
inductive IrTargetComponent where
  | field (name : String)
  | index (i : Nat)

/-- Modelled from the spec: `Target` (§3, §4.3), a dotted path referring to
a sub-location of an existing binding; the ir module defining `IrTarget`
is not among the sources. -/
structure IrTarget where
  span : Span
  name : String
  path : List IrTargetComponent

/-- Literals a pattern can match ( scalar categories of `IrValue`). -/
inductive IrPatLit where
  | unit
  | bool (b : Bool)
  | integer (i : Int)
  | str (s : String)

mutual

/-- Modelled from the spec: patterns for conditional `let` (§4.4): literal
match, identifier bind, wildcard, arity-exact tuple pattern, key-exact
object pattern with optional rest marker; the ir module defining `IrPat`
is not among the sources. -/
inductive IrPat where
  | ignore
  | binding (name : String)
  | lit (l : IrPatLit)
  | tup (items : IrPatList)
  | obj (entries : IrPatObjList) (rest : Bool)

/-- A list of sub-patterns of a tuple pattern. -/
inductive IrPatList where
  | nil
  | cons (head : IrPat) (tail : IrPatList)

/-- The keyed sub-patterns of an object pattern. -/
inductive IrPatObjList where
  | nil
  | cons (key : String) (pat : IrPat) (tail : IrPatObjList)

end

/-- Number of keyed sub-patterns of an object pattern. -/
def IrPatObjList.length : IrPatObjList → Nat
  | .nil => 0
  | .cons _ _ tail => 1 + tail.length

/-- Binary operators of `Binary(op, lhs, rhs)` (`ir::IrBinaryOp`). -/
inductive IrBinaryOp where
  | add
  | sub
  | mul
  | div
  | shl
  | shr
  | lt
  | lte
  | eq
  | gt
  | gte

/-- Modelled from the spec: the compound-assignment operators of `Assign`
(§4.2, "like Set but combines with a binary operator"); the ir module
defining `IrAssignOp` is not among the sources. -/
inductive IrAssignOp where
  | add
  | sub
  | mul
  | div
  | shl
  | shr

mutual

/-- An IR node: a span plus the `IrKind` payload (`ir::Ir`). -/
inductive Ir where
  | mk (span : Span) (kind : IrKind)

/-- The closed sum of IR node kinds (`ir::IrKind`), one case per dispatch
arm of `eval_ir` in eval.rs. -/
inductive IrKind where
  | scope (ir : IrScope)
  | binary (ir : IrBinary)
  | decl (ir : IrDecl)
  | set (ir : IrSet)
  | assign (ir : IrAssign)
  | template (ir : IrTemplate)
  | name (name : String)
  | target (target : IrTarget)
  | value (value : IrValue)
  | branches (ir : IrBranches)
  | loop (ir : IrLoop)
  | brk (ir : IrBreak)
  | vec (ir : IrVec)
  | tuple (ir : IrTuple)
  | object (ir : IrObject)
  | call (ir : IrCall)

/-- A scope block: instructions evaluated for effect plus an optional
trailing expression (`ir::IrScope`). -/
inductive IrScope where
  | mk (span : Span) (instructions : List Ir) (last : Option Ir)

/-- A binary expression (`ir::IrBinary`): its own span, the operator and
the two operands. -/
inductive IrBinary where
  | mk (span : Span) (op : IrBinaryOp) (lhs : Ir) (rhs : Ir)

/-- A declaration `let name = value` (`ir::IrDecl`). -/
inductive IrDecl where
  | mk (span : Span) (name : String) (value : Ir)

/-- A write to a target (`ir::IrSet`). -/
inductive IrSet where
  | mk (span : Span) (target : IrTarget) (value : Ir)

/-- A compound assignment to a target (`ir::IrAssign`). -/
inductive IrAssign where
  | mk (span : Span) (target : IrTarget) (op : IrAssignOp) (value : Ir)

/-- A string template (`ir::IrTemplate`). -/
inductive IrTemplate where
  | mk (span : Span) (components : List IrTemplateComponent)

/-- A template component: a literal chunk or a nested IR
(`ir::IrTemplateComponent`). -/
inductive IrTemplateComponent where
  | str (s : String)
  | ir (ir : Ir)

/-- Conditional branches with an optional default branch
(`ir::IrBranches`). -/
inductive IrBranches where
  | mk (span : Span) (branches : List (IrCondition × IrScope))
      (default_branch : Option IrScope)

/-- A branch or loop condition: a plain boolean expression or a pattern
`let` (`ir::IrCondition`). -/
inductive IrCondition where
  | ir (ir : Ir)
  | lett (ir : IrLet)

/-- A pattern `let` condition (`ir::IrLet`). -/
inductive IrLet where
  | mk (span : Span) (ir : Ir) (pat : IrPat)

/-- A loop with optional label, optional condition and mandatory body
(`ir::IrLoop`). -/
inductive IrLoop where
  | mk (span : Span) (label : Option String) (condition : Option IrCondition)
      (body : IrScope)

/-- A break expression (`ir::IrBreak`). -/
inductive IrBreak where
  | mk (span : Span) (kind : IrBreakKind)

/-- What a break carries: nothing, a label, or a value expression
(`ir::IrBreakKind`). -/
inductive IrBreakKind where
  | inherent
  | label (label : String)
  | value (value : Ir)

/-- A vector literal (`ir::IrVec`). -/
inductive IrVec where
  | mk (span : Span) (items : List Ir)

/-- A tuple literal (`ir::IrTuple`). -/
inductive IrTuple where
  | mk (span : Span) (items : List Ir)

/-- An object literal: ordered key/value assignments (`ir::IrObject`). -/
inductive IrObject where
  | mk (span : Span) (assignments : List (String × Ir))

/-- A call of a registered constant function (`ir::IrCall`). -/
inductive IrCall where
  | mk (span : Span) (target : String) (args : List Ir)

end

def Ir.span : Ir → Span
  | .mk s _ => s

def Ir.kind : Ir → IrKind
  | .mk _ k => k

def IrScope.span : IrScope → Span
  | .mk s _ _ => s

def IrScope.instructions : IrScope → List Ir
  | .mk _ i _ => i

def IrScope.last : IrScope → Option Ir
  | .mk _ _ l => l

def IrBinary.span : IrBinary → Span
  | .mk s _ _ _ => s

def IrBinary.op : IrBinary → IrBinaryOp
  | .mk _ o _ _ => o

def IrBinary.lhs : IrBinary → Ir
  | .mk _ _ l _ => l

def IrBinary.rhs : IrBinary → Ir
  | .mk _ _ _ r => r

def IrDecl.span : IrDecl → Span
  | .mk s _ _ => s

def IrDecl.name : IrDecl → String
  | .mk _ n _ => n

def IrDecl.value : IrDecl → Ir
  | .mk _ _ v => v

def IrSet.span : IrSet → Span
  | .mk s _ _ => s

def IrSet.target : IrSet → IrTarget
  | .mk _ t _ => t

def IrSet.value : IrSet → Ir
  | .mk _ _ v => v

def IrAssign.span : IrAssign → Span
  | .mk s _ _ _ => s

def IrAssign.target : IrAssign → IrTarget
  | .mk _ t _ _ => t

def IrAssign.op : IrAssign → IrAssignOp
  | .mk _ _ o _ => o

def IrAssign.value : IrAssign → Ir
  | .mk _ _ _ v => v

def IrTemplate.span : IrTemplate → Span
  | .mk s _ => s

def IrTemplate.components : IrTemplate → List IrTemplateComponent
  | .mk _ c => c

def IrBranches.branches : IrBranches → List (IrCondition × IrScope)
  | .mk _ b _ => b

def IrBranches.default_branch : IrBranches → Option IrScope
  | .mk _ _ d => d

def IrLet.span : IrLet → Span
  | .mk s _ _ => s

def IrLet.ir : IrLet → Ir
  | .mk _ i _ => i

def IrLet.pat : IrLet → IrPat
  | .mk _ _ p => p

/-- `Spanned` for a condition: the span of the wrapped expression or of the
`let`. -/
def IrCondition.span : IrCondition → Span
  | .ir i => i.span
  | .lett l => l.span

def IrLoop.span : IrLoop → Span
  | .mk s _ _ _ => s

def IrLoop.label : IrLoop → Option String
  | .mk _ l _ _ => l

def IrLoop.condition : IrLoop → Option IrCondition
  | .mk _ _ c _ => c

def IrLoop.body : IrLoop → IrScope
  | .mk _ _ _ b => b

def IrBreak.span : IrBreak → Span
  | .mk s _ => s

def IrBreak.kind : IrBreak → IrBreakKind
  | .mk _ k => k

def IrVec.items : IrVec → List Ir
  | .mk _ i => i

def IrTuple.items : IrTuple → List Ir
  | .mk _ i => i

def IrObject.assignments : IrObject → List (String × Ir)
  | .mk _ a => a

def IrCall.span : IrCall → Span
  | .mk s _ _ => s

def IrCall.target : IrCall → String
  | .mk _ t _ => t

def IrCall.args : IrCall → List Ir
  | .mk _ _ a => a

/-- The mutable interpreter state threaded through evaluation: the
remaining budget and the scope stack (innermost frame first). -/
structure EvalState where
  budget : Nat
  scopes : List Frame

/-- `IrEvalBreak` from eval.rs: the value of a break. -/
inductive IrEvalBreak where
  | inherent
  | value (value : IrValue)
  | label (label : String)

/-- `IrEvalOutcome` from eval.rs: the outcome of a constant evaluation that
did not produce a value. -/
inductive IrEvalOutcome where
  | notConst (span : Span)
  | error (e : IrError)
  | brk (span : Span) (b : IrEvalBreak)

/-- Result of one evaluator entry: the `Result<IrValue, IrEvalOutcome>`
together with the state as left behind. -/
abbrev EvalResult := Except IrEvalOutcome IrValue × EvalState

/-- `as_bool` from eval.rs: process an ir value as a boolean. -/
def asBool (sp : Span) (v : IrValue) : Except IrError Bool :=
  match v with
  | .bool b => .ok b
  | _ => .error (IrError.msg sp ("expected bool"))

/-- Modelled from the spec: `interp.budget.take(span)` (§4.2 Budget), a
decrementing instruction counter that errors with the current span on
exhaustion; the interpreter module defining the budget is not among the
sources. -/
def budgetTake (sp : Span) (s : EvalState) : Except IrError EvalState :=
  if s.budget = 0 then .error (IrError.msg sp ("budget exceeded"))
  else .ok { s with budget := s.budget - 1 }

/-- Insert a binding into a frame, replacing a previous binding of the same
name (also the model of `HashMap::insert` for object literals). -/
def frameDecl (name : String) (value : IrValue) : Frame → Frame
  | [] => [(name, value)]
  | (n, v) :: rest =>
    if n = name then (name, value) :: rest else (n, v) :: frameDecl name value rest

/-- Look a name up in one frame (also assoc-lookup in an object). -/
def frameGet (name : String) : Frame → Option IrValue
  | [] => none
  | (n, v) :: rest => if n = name then some v else frameGet name rest

/-- Modelled from the spec: `scopes.get(name)` walks the stack from the
innermost frame outward (§4.3); the scopes module is not among the
sources. -/
def scopesGet (name : String) : List Frame → Option IrValue
  | [] => none
  | f :: rest =>
    match frameGet name f with
    | some v => some v
    | none => scopesGet name rest

/-- Modelled from the spec: `scopes.push()` returns a guard token
identifying the frame's depth (§4.3). -/
def scopesPush (s : EvalState) : Nat × EvalState :=
  (s.scopes.length, { s with scopes := [] :: s.scopes })

/-- Modelled from the spec: `scopes.pop(ir, guard)` must be called with the
exact guard; a mismatch is an invariant-violation error (§4.3). -/
def scopesPop (sp : Span) (guard : Nat) (s : EvalState) : Except IrError EvalState :=
  match s.scopes with
  | [] => .error (IrError.msg sp ("missing scope to pop"))
  | _ :: rest =>
    if rest.length = guard then .ok { s with scopes := rest }
    else .error (IrError.msg sp ("mismatched scope guard"))

/-- Modelled from the spec: `scopes.decl(name, value, origin)` binds the
name in the current frame, replacing a previous same-frame binding
(§4.2 Decl, §4.3). -/
def scopesDecl (sp : Span) (name : String) (value : IrValue) (s : EvalState) :
    Except IrError EvalState :=
  match s.scopes with
  | [] => .error (IrError.msg sp ("no current scope"))
  | f :: rest => .ok { s with scopes := frameDecl name value f :: rest }

/-- Modelled from the spec: `scopes.clear_current(ir)` clears the bindings
declared in the topmost frame since its push (§4.3). -/
def scopesClearCurrent (sp : Span) (s : EvalState) : Except IrError EvalState :=
  match s.scopes with
  | [] => .error (IrError.msg sp ("no current scope"))
  | _ :: rest => .ok { s with scopes := [] :: rest }

/-- Modelled from the spec: walking a target path inside a value; missing
intermediate keys or out-of-bounds indices are errors (§4.2 Set). -/
def valuePathGet (sp : Span) : List IrTargetComponent → IrValue → Except IrError IrValue
  | [], v => .ok v
  | .field n :: rest, .object entries =>
    match frameGet n entries with
    | some v => valuePathGet sp rest v
    | none => .error (IrError.msg sp ("missing object field"))
  | .field _ :: _, _ => .error (IrError.msg sp ("expected object for field access"))
  | .index i :: rest, .vec items =>
    match items[i]? with
    | some v => valuePathGet sp rest v
    | none => .error (IrError.msg sp ("index out of bounds"))
  | .index i :: rest, .tuple items =>
    match items[i]? with
    | some v => valuePathGet sp rest v
    | none => .error (IrError.msg sp ("index out of bounds"))
  | .index _ :: _, _ => .error (IrError.msg sp ("expected vector or tuple for index access"))

/-- Modelled from the spec: writing through a target path, rebuilding the
containers along the walked path (§4.2 Set). -/
def valuePathSet (sp : Span) :
    List IrTargetComponent → IrValue → IrValue → Except IrError IrValue
  | [], _, nv => .ok nv
  | .field n :: rest, .object entries, nv =>
    match frameGet n entries with
    | some old =>
      match valuePathSet sp rest old nv with
      | .ok v => .ok (.object (frameDecl n v entries))
      | .error e => .error e
    | none => .error (IrError.msg sp ("missing object field"))
  | .field _ :: _, _, _ => .error (IrError.msg sp ("expected object for field access"))
  | .index i :: rest, .vec items, nv =>
    match items[i]? with
    | some old =>
      match valuePathSet sp rest old nv with
      | .ok v => .ok (.vec (items.set i v))
      | .error e => .error e
    | none => .error (IrError.msg sp ("index out of bounds"))
  | .index i :: rest, .tuple items, nv =>
    match items[i]? with
    | some old =>
      match valuePathSet sp rest old nv with
      | .ok v => .ok (.tuple (items.set i v))
      | .error e => .error e
    | none => .error (IrError.msg sp ("index out of bounds"))
  | .index _ :: _, _, _ => .error (IrError.msg sp ("expected vector or tuple for index access"))

/-- Replace the binding of a name in the innermost frame that holds it. -/
def scopesSetName (sp : Span) (name : String) (nv : IrValue) :
    List Frame → Except IrError (List Frame)
  | [] => .error (IrError.msg sp ("missing binding"))
  | f :: rest =>
    if (frameGet name f).isSome then .ok (frameDecl name nv f :: rest)
    else
      match scopesSetName sp name nv rest with
      | .ok r => .ok (f :: r)
      | .error e => .error e

/-- Modelled from the spec: `scopes.get_target(target)` resolves a dotted
path into an existing binding (§4.2 Name/Target, §4.3). -/
def targetGet (t : IrTarget) (s : EvalState) : Except IrError IrValue :=
  match scopesGet t.name s.scopes with
  | none => .error (IrError.msg t.span ("missing binding"))
  | some v => valuePathGet t.span t.path v

/-- Modelled from the spec: `scopes.set_target(target, value)` writes a
value to a target (§4.2 Set, §4.3). -/
def targetSet (t : IrTarget) (nv : IrValue) (s : EvalState) : Except IrError EvalState :=
  match scopesGet t.name s.scopes with
  | none => .error (IrError.msg t.span ("missing binding"))
  | some old =>
    match valuePathSet t.span t.path old nv with
    | .error e => .error e
    | .ok v =>
      match scopesSetName t.span t.name v s.scopes with
      | .error e => .error e
      | .ok sc => .ok { s with scopes := sc }

/-- Modelled from the spec: `scopes.mut_target(target, f)` reads the
targeted sub-value, applies the fallible modification and writes the
result back in place (§4.2 Assign, §4.3). -/
def targetModify (t : IrTarget) (f : IrValue → Except IrError IrValue) (s : EvalState) :
    Except IrError EvalState :=
  match targetGet t s with
  | .error e => .error e
  | .ok old =>
    match f old with
    | .error e => .error e
    | .ok v => targetSet t v s

/-- A literal pattern matches a value of the same scalar category by
equality; a different category is a structural mismatch. -/
def patLitMatch (sp : Span) (l : IrPatLit) (v : IrValue) : Except IrError (Option Frame) :=
  match l, v with
  | .unit, .unit => .ok (some [])
  | .bool a, .bool b => .ok (if a = b then some [] else none)
  | .integer a, .integer b => .ok (if a = b then some [] else none)
  | .str a, .string b => .ok (if a = b then some [] else none)
  | _, _ => .error (IrError.msg sp ("mismatched pattern"))

mutual

/-- Modelled from the spec: `pat.matches(interp, value, origin)` (§4.4);
returns the bindings on a match, `none` on a plain mismatch, and errors on
a structural mismatch (value not of the pattern's expected category). -/
def patMatch (sp : Span) : IrPat → IrValue → Except IrError (Option Frame)
  | .ignore, _ => .ok (some [])
  | .binding n, v => .ok (some [(n, v)])
  | .lit l, v => patLitMatch sp l v
  | .tup ps, .tuple items => patMatchList sp ps items
  | .tup _, _ => .error (IrError.msg sp ("expected tuple for tuple pattern"))
  | .obj ps rest, .object entries =>
    if !rest ∧ entries.length ≠ ps.length then .ok none
    else patMatchObj sp ps entries
  | .obj _ _, _ => .error (IrError.msg sp ("expected object for object pattern"))

/-- Match the sub-patterns of a tuple pattern element-wise (arity-exact). -/
def patMatchList (sp : Span) : IrPatList → List IrValue → Except IrError (Option Frame)
  | .nil, [] => .ok (some [])
  | .nil, _ :: _ => .ok none
  | .cons _ _, [] => .ok none
  | .cons p ps, v :: vs =>
    match patMatch sp p v with
    | .error e => .error e
    | .ok none => .ok none
    | .ok (some bs) =>
      match patMatchList sp ps vs with
      | .error e => .error e
      | .ok none => .ok none
      | .ok (some bs2) => .ok (some (bs ++ bs2))

/-- Match the keyed sub-patterns of an object pattern against the entries. -/
def patMatchObj (sp : Span) : IrPatObjList → List (String × IrValue) →
    Except IrError (Option Frame)
  | .nil, _ => .ok (some [])
  | .cons k p ps, entries =>
    match frameGet k entries with
    | none => .ok none
    | some v =>
      match patMatch sp p v with
      | .error e => .error e
      | .ok none => .ok none
      | .ok (some bs) =>
        match patMatchObj sp ps entries with
        | .error e => .error e
        | .ok none => .ok none
        | .ok (some bs2) => .ok (some (bs ++ bs2))

end

/-- Declare a list of pattern bindings in order. -/
def declAll (sp : Span) : List (String × IrValue) → EvalState → Except IrError EvalState
  | [], s => .ok s
  | (n, v) :: rest, s =>
    match scopesDecl sp n v s with
    | .error e => .error e
    | .ok s => declAll sp rest s

/-- External collaborators of the evaluator, kept abstract: `f64` arithmetic
and comparison (the evaluator only routes them), `ryu`-style float
formatting for templates, and `interp.call_const_fn` — modelled from the
spec (§4.2 Call, §6): resolves a registered constant function and
recursively evaluates it against the shared budget; the query machinery is
not among the sources. -/
structure EvalCtx where
  floatAdd : F64 → F64 → F64
  floatSub : F64 → F64 → F64
  floatMul : F64 → F64 → F64
  floatDiv : F64 → F64 → F64
  floatLt : F64 → F64 → Bool
  floatLte : F64 → F64 → Bool
  floatEq : F64 → F64 → Bool
  floatGt : F64 → F64 → Bool
  floatGte : F64 → F64 → Bool
  formatFloat : F64 → String
  callConstFn : IrCall → List IrValue → EvalState → Except IrEvalOutcome IrValue × EvalState

/-- Left shift of an arbitrary-precision integer: multiplication by a power
of two. -/
def intShl (a : Int) (b : Nat) : Int := a * 2 ^ b

/-- Right shift of an arbitrary-precision integer: flooring division by a
power of two (sign-extending, as num-bigint's `Shr`). -/
def intShr (a : Int) (b : Nat) : Int := Int.fdiv a (2 ^ b)

/-- The operand dispatch of `eval_ir_binary` (eval.rs lines 84-144): the
pure result computed from the evaluated operand pair, the operator, the
binary node's span and the right operand's span.  `(Integer, Integer)`
admits every operator with checked division and a `u32` shift bound;
`(Float, Float)` admits arithmetic and comparisons but falls through to
`NotConst` for shifts; `(String, String)` admits only `Add`; every other
pair falls through to `NotConst` at the binary's span. -/
def irBinaryOpEval (ctx : EvalCtx) (span rhsSpan : Span) (op : IrBinaryOp)
    (a b : IrValue) : Except IrEvalOutcome IrValue :=
  match a, b with
  | .integer a, .integer b =>
    match op with
    | .add => .ok (.integer (a + b))
    | .sub => .ok (.integer (a - b))
    | .mul => .ok (.integer (a * b))
    | .div =>
      if b = 0 then .error (.error (IrError.msg span ("division by zero")))
      else .ok (.integer (Int.tdiv a b))
    | .shl =>
      if 0 ≤ b ∧ b < 4294967296 then .ok (.integer (intShl a b.toNat))
      else .error (.error (IrError.msg rhsSpan ("cannot be converted to shift operand")))
    | .shr =>
      if 0 ≤ b ∧ b < 4294967296 then .ok (.integer (intShr a b.toNat))
      else .error (.error (IrError.msg rhsSpan ("cannot be converted to shift operand")))
    | .lt => .ok (.bool (decide (a < b)))
    | .lte => .ok (.bool (decide (a ≤ b)))
    | .eq => .ok (.bool (decide (a = b)))
    | .gt => .ok (.bool (decide (b < a)))
    | .gte => .ok (.bool (decide (b ≤ a)))
  | .float x, .float y =>
    match op with
    | .add => .ok (.float (ctx.floatAdd x y))
    | .sub => .ok (.float (ctx.floatSub x y))
    | .mul => .ok (.float (ctx.floatMul x y))
    | .div => .ok (.float (ctx.floatDiv x y))
    | .lt => .ok (.bool (ctx.floatLt x y))
    | .lte => .ok (.bool (ctx.floatLte x y))
    | .eq => .ok (.bool (ctx.floatEq x y))
    | .gt => .ok (.bool (ctx.floatGt x y))
    | .gte => .ok (.bool (ctx.floatGte x y))
    | .shl => .error (.notConst span)
    | .shr => .error (.notConst span)
  | .string x, .string y =>
    match op with
    | .add => .ok (.string (x ++ y))
    | _ => .error (.notConst span)
  | _, _ => .error (.notConst span)

/-- Modelled from the spec: the read-modify-write operation `op.assign` of
`Assign` (§4.2), combining the in-place value with the evaluated operand
like the corresponding binary operator; the ir module defining
`IrAssignOp::assign` is not among the sources. -/
def assignOpApply (ctx : EvalCtx) (sp : Span) (op : IrAssignOp) (t v : IrValue) :
    Except IrError IrValue :=
  match t, v with
  | .integer a, .integer b =>
    match op with
    | .add => .ok (.integer (a + b))
    | .sub => .ok (.integer (a - b))
    | .mul => .ok (.integer (a * b))
    | .div =>
      if b = 0 then .error (IrError.msg sp ("division by zero"))
      else .ok (.integer (Int.tdiv a b))
    | .shl =>
      if 0 ≤ b ∧ b < 4294967296 then .ok (.integer (intShl a b.toNat))
      else .error (IrError.msg sp ("cannot be converted to shift operand"))
    | .shr =>
      if 0 ≤ b ∧ b < 4294967296 then .ok (.integer (intShr a b.toNat))
      else .error (IrError.msg sp ("cannot be converted to shift operand"))
  | .float x, .float y =>
    match op with
    | .add => .ok (.float (ctx.floatAdd x y))
    | .sub => .ok (.float (ctx.floatSub x y))
    | .mul => .ok (.float (ctx.floatMul x y))
    | .div => .ok (.float (ctx.floatDiv x y))
    | _ => .error (IrError.msg sp ("invalid operation"))
  | .string x, .string y =>
    match op with
    | .add => .ok (.string (x ++ y))
    | _ => .error (IrError.msg sp ("invalid operation"))
  | _, _ => .error (IrError.msg sp ("invalid operation"))

/-- The type of the recursive evaluation callback handed to the
per-construct helpers. -/
abbrev Recur := Ir → EvalState → Option EvalResult

/-- The instruction loop of `eval_ir_scope`: evaluate each instruction for
its side effect, propagating failures (`let _ = eval_ir(ir, ...)?`). -/
def evalSeq (recur : Recur) : List Ir → EvalState → Option (Except IrEvalOutcome Unit × EvalState)
  | [], s => some (.ok (), s)
  | i :: rest, s =>
    match recur i s with
    | none => none
    | some (.error o, s) => some (.error o, s)
    | some (.ok _, s) => evalSeq recur rest s

/-- The argument/item loop of `eval_ir_vec` / `eval_ir_tuple` /
`eval_ir_call`: evaluate each item left to right, collecting the values. -/
def evalVals (recur : Recur) :
    List Ir → List IrValue → EvalState → Option (Except IrEvalOutcome (List IrValue) × EvalState)
  | [], acc, s => some (.ok acc.reverse, s)
  | i :: rest, acc, s =>
    match recur i s with
    | none => none
    | some (.error o, s) => some (.error o, s)
    | some (.ok v, s) => evalVals recur rest (v :: acc) s

/-- The assignment loop of `eval_ir_object` (eval.rs lines 290-294):
evaluate each value in source order and `insert` it under its key,
overwriting a previous entry with the same key. -/
def evalObjectAssignments (recur : Recur) :
    List (String × Ir) → List (String × IrValue) → EvalState →
      Option (Except IrEvalOutcome (List (String × IrValue)) × EvalState)
  | [], acc, s => some (.ok acc, s)
  | (k, i) :: rest, acc, s =>
    match recur i s with
    | none => none
    | some (.error o, s) => some (.error o, s)
    | some (.ok v, s) => evalObjectAssignments recur rest (frameDecl k v acc) s

/-- The component loop of `eval_ir_template` (eval.rs lines 341-370):
literal chunks are appended, nested IRs are evaluated and must be an
integer, float, bool or string; anything else is `NotConst` at the
component's span. -/
def evalTemplateComponents (ctx : EvalCtx) (recur : Recur) :
    List IrTemplateComponent → String → EvalState →
      Option (Except IrEvalOutcome String × EvalState)
  | [], buf, s => some (.ok buf, s)
  | .str lit :: rest, buf, s => evalTemplateComponents ctx recur rest (buf ++ lit) s
  | .ir i :: rest, buf, s =>
    match recur i s with
    | none => none
    | some (.error o, s) => some (.error o, s)
    | some (.ok v, s) =>
      match v with
      | .integer n => evalTemplateComponents ctx recur rest (buf ++ toString n) s
      | .float f => evalTemplateComponents ctx recur rest (buf ++ ctx.formatFloat f) s
      | .bool b => evalTemplateComponents ctx recur rest (buf ++ (if b then "true" else "false")) s
      | .string str => evalTemplateComponents ctx recur rest (buf ++ str) s
      | _ => some (.error (.notConst i.span), s)

/-- The branch loop of `eval_ir_branches` (eval.rs lines 165-187): each
branch pushes a scope guard, evaluates its condition and, when true, its
body; the `?` on the condition and body evaluations returns early WITHOUT
popping the pushed guard, exactly as the source does; only the in-line
exits pop.  After the loop the optional default branch is evaluated
without an extra push. -/
def evalBranches (recurCond : IrCondition → EvalState → Option EvalResult)
    (recurScope : IrScope → EvalState → Option EvalResult) :
    List (IrCondition × IrScope) → Option IrScope → EvalState → Option EvalResult
  | [], defaultBranch, s =>
    match defaultBranch with
    | some branch => recurScope branch s
    | none => some (.ok .unit, s)
  | (cond, branch) :: rest, defaultBranch, s =>
    match scopesPush s with
    | (guard, s) =>
      match recurCond cond s with
      | none => none
      | some (.error o, s) => some (.error o, s)
      | some (.ok v, s) =>
        match asBool cond.span v with
        | .error e => some (.error (.error e), s)
        | .ok true =>
          match recurScope branch s with
          | none => none
          | some (.error o, s) => some (.error o, s)
          | some (.ok out, s) =>
            match scopesPop branch.span guard s with
            | .error e => some (.error (.error e), s)
            | .ok s => some (.ok out, s)
        | .ok false =>
          match scopesPop branch.span guard s with
          | .error e => some (.error (.error e), s)
          | .ok s => evalBranches recurCond recurScope rest defaultBranch s

/-- The `match eval_ir_scope(&ir.body, ...)` arm of the loop in
`eval_ir_loop` (eval.rs lines 253-278): `Ok` continues iterating; an
inherent break or a matching label pops the guard and yields `Unit`; a
non-matching label re-raises (without popping); a value-carrying break
returns the value directly (without popping!) when the loop has no
condition and errors otherwise; any other outcome is returned as is. -/
def loopAfterBody (l : IrLoop) (guard : Nat) (recurIter : EvalState → Option EvalResult)
    (r : Option EvalResult) : Option EvalResult :=
  match r with
  | none => none
  | some (.ok _, s) => recurIter s
  | some (.error (.brk sp bk), s) =>
    match bk with
    | .inherent =>
      match scopesPop l.span guard s with
      | .error e => some (.error (.error e), s)
      | .ok s => some (.ok .unit, s)
    | .label lb =>
      if l.label = some lb then
        match scopesPop l.span guard s with
        | .error e => some (.error (.error e), s)
        | .ok s => some (.ok .unit, s)
      else some (.error (.brk sp (.label lb)), s)
    | .value v =>
      if l.condition.isNone then some (.ok v, s)
      else
        some (.error (.error (IrError.msg sp
          ("break with value is not supported for unconditional loops"))), s)
  | some (.error o, s) => some (.error o, s)

/-- One request to the evaluator: the four mutually recursive entry points
of eval.rs (`eval_ir`, `eval_ir_scope`, `eval_ir_condition`, and one
iteration of the loop in `eval_ir_loop` carrying the loop's scope guard). -/
inductive Req where
  | ir (ir : Ir)
  | scope (ir : IrScope)
  | cond (ir : IrCondition)
  | loopIter (ir : IrLoop) (guard : Nat)

/-- The fuel-indexed evaluator.  Fuel is an artefact of the embedding only:
`none` means the fuel ran out, never a behaviour of the source.  Every
`eval_ir` entry charges the budget before dispatching (eval.rs line 409),
and the helpers for scope, binary, decl, set, assign, template and loop
charge it once more at their own entry, exactly as the source does. -/
def evalGo (ctx : EvalCtx) : Nat → Req → EvalState → Option EvalResult
  | 0, _, _ => none
  | f + 1, .ir ir, s =>
    match budgetTake ir.span s with
    | .error e => some (.error (.error e), s)
    | .ok s =>
      match ir.kind with
      | .scope sc => evalGo ctx f (.scope sc) s
      | .binary b =>
        match budgetTake b.span s with
        | .error e => some (.error (.error e), s)
        | .ok s =>
          match evalGo ctx f (.ir b.lhs) s with
          | none => none
          | some (.error o, s) => some (.error o, s)
          | some (.ok a, s) =>
            match evalGo ctx f (.ir b.rhs) s with
            | none => none
            | some (.error o, s) => some (.error o, s)
            | some (.ok bv, s) => some (irBinaryOpEval ctx b.span b.rhs.span b.op a bv, s)
      | .decl d =>
        match budgetTake d.span s with
        | .error e => some (.error (.error e), s)
        | .ok s =>
          match evalGo ctx f (.ir d.value) s with
          | none => none
          | some (.error o, s) => some (.error o, s)
          | some (.ok v, s) =>
            match scopesDecl d.span d.name v s with
            | .error e => some (.error (.error e), s)
            | .ok s => some (.ok .unit, s)
      | .set st =>
        match budgetTake st.span s with
        | .error e => some (.error (.error e), s)
        | .ok s =>
          match evalGo ctx f (.ir st.value) s with
          | none => none
          | some (.error o, s) => some (.error o, s)
          | some (.ok v, s) =>
            match targetSet st.target v s with
            | .error e => some (.error (.error e), s)
            | .ok s => some (.ok .unit, s)
      | .assign a =>
        match budgetTake a.span s with
        | .error e => some (.error (.error e), s)
        | .ok s =>
          match evalGo ctx f (.ir a.value) s with
          | none => none
          | some (.error o, s) => some (.error o, s)
          | some (.ok v, s) =>
            match targetModify a.target (fun t => assignOpApply ctx a.span a.op t v) s with
            | .error e => some (.error (.error e), s)
            | .ok s => some (.ok .unit, s)
      | .template t =>
        match budgetTake t.span s with
        | .error e => some (.error (.error e), s)
        | .ok s =>
          match evalTemplateComponents ctx (fun i s => evalGo ctx f (.ir i) s)
              t.components "" s with
          | none => none
          | some (.error o, s) => some (.error o, s)
          | some (.ok str, s) => some (.ok (.string str), s)
      | .name n =>
        match scopesGet n s.scopes with
        | some v => some (.ok v, s)
        | none => some (.error (.error (IrError.msg ir.span ("missing local " ++ n))), s)
      | .target t =>
        match targetGet t s with
        | .ok v => some (.ok v, s)
        | .error e => some (.error (.error e), s)
      | .value v => some (.ok v, s)
      | .branches b =>
        evalBranches (fun c s => evalGo ctx f (.cond c) s)
          (fun sc s => evalGo ctx f (.scope sc) s) b.branches b.default_branch s
      | .loop l =>
        match budgetTake l.span s with
        | .error e => some (.error (.error e), s)
        | .ok s =>
          match scopesPush s with
          | (guard, s) => evalGo ctx f (.loopIter l guard) s
      | .brk b =>
        match b.kind with
        | .inherent => some (.error (.brk b.span .inherent), s)
        | .label lb => some (.error (.brk b.span (.label lb)), s)
        | .value vir =>
          match evalGo ctx f (.ir vir) s with
          | none => none
          | some (.error o, s) => some (.error o, s)
          | some (.ok v, s) => some (.error (.brk b.span (.value v)), s)
      | .vec v =>
        match evalVals (fun i s => evalGo ctx f (.ir i) s) v.items [] s with
        | none => none
        | some (.error o, s) => some (.error o, s)
        | some (.ok vs, s) => some (.ok (.vec vs), s)
      | .tuple t =>
        match evalVals (fun i s => evalGo ctx f (.ir i) s) t.items [] s with
        | none => none
        | some (.error o, s) => some (.error o, s)
        | some (.ok vs, s) => some (.ok (.tuple vs), s)
      | .object o =>
        match evalObjectAssignments (fun i s => evalGo ctx f (.ir i) s) o.assignments [] s with
        | none => none
        | some (.error o, s) => some (.error o, s)
        | some (.ok entries, s) => some (.ok (.object entries), s)
      | .call c =>
        match evalVals (fun i s => evalGo ctx f (.ir i) s) c.args [] s with
        | none => none
        | some (.error o, s) => some (.error o, s)
        | some (.ok args, s) =>
          match ctx.callConstFn c args s with
          | (.error o, s) => some (.error o, s)
          | (.ok v, s) => some (.ok v, s)
  | f + 1, .scope sc, s =>
    match budgetTake sc.span s with
    | .error e => some (.error (.error e), s)
    | .ok s =>
      match scopesPush s with
      | (guard, s) =>
        match evalSeq (fun i s => evalGo ctx f (.ir i) s) sc.instructions s with
        | none => none
        | some (.error o, s) => some (.error o, s)
        | some (.ok _, s) =>
          match (match sc.last with
                 | some last => evalGo ctx f (.ir last) s
                 | none => some (.ok .unit, s)) with
          | none => none
          | some (.error o, s) => some (.error o, s)
          | some (.ok v, s) =>
            match scopesPop sc.span guard s with
            | .error e => some (.error (.error e), s)
            | .ok s => some (.ok v, s)
  | f + 1, .cond c, s =>
    match c with
    | .ir i =>
      match evalGo ctx f (.ir i) s with
      | none => none
      | some (.error o, s) => some (.error o, s)
      | some (.ok v, s) =>
        match asBool i.span v with
        | .error e => some (.error (.error e), s)
        | .ok b => some (.ok (.bool b), s)
    | .lett l =>
      match evalGo ctx f (.ir l.ir) s with
      | none => none
      | some (.error o, s) => some (.error o, s)
      | some (.ok v, s) =>
        match patMatch c.span l.pat v with
        | .error e => some (.error (.error e), s)
        | .ok none => some (.ok (.bool false), s)
        | .ok (some binds) =>
          match declAll c.span binds s with
          | .error e => some (.error (.error e), s)
          | .ok s => some (.ok (.bool true), s)
  | f + 1, .loopIter l guard, s =>
    match l.condition with
    | some c =>
      match scopesClearCurrent c.span s with
      | .error e => some (.error (.error e), s)
      | .ok s =>
        match evalGo ctx f (.cond c) s with
        | none => none
        | some (.error o, s) => some (.error o, s)
        | some (.ok v, s) =>
          match asBool c.span v with
          | .error e => some (.error (.error e), s)
          | .ok false =>
            match scopesPop l.span guard s with
            | .error e => some (.error (.error e), s)
            | .ok s => some (.ok .unit, s)
          | .ok true =>
            loopAfterBody l guard (fun s => evalGo ctx f (.loopIter l guard) s)
              (evalGo ctx f (.scope l.body) s)
    | none =>
      loopAfterBody l guard (fun s => evalGo ctx f (.loopIter l guard) s)
        (evalGo ctx f (.scope l.body) s)

/-- `eval_ir(ir, interp, used)` from eval.rs: the public evaluator entry. -/
def eval_ir (ctx : EvalCtx) (fuel : Nat) (ir : Ir) (s : EvalState) : Option EvalResult :=
  evalGo ctx fuel (.ir ir) s

/-- `eval_ir_scope(ir, interp, used)` from eval.rs. -/
def eval_ir_scope (ctx : EvalCtx) (fuel : Nat) (ir : IrScope) (s : EvalState) :
    Option EvalResult :=
  evalGo ctx fuel (.scope ir) s

/-- A concrete evaluation context for concrete runs: inert float operations
and a constant-function resolver that reports every call as not constant. -/
def ctx0 : EvalCtx where
  floatAdd := fun a _ => a
  floatSub := fun a _ => a
  floatMul := fun a _ => a
  floatDiv := fun a _ => a
  floatLt := fun _ _ => false
  floatLte := fun _ _ => false
  floatEq := fun _ _ => false
  floatGt := fun _ _ => false
  floatGte := fun _ _ => false
  formatFloat := fun _ => ""
  callConstFn := fun c _ s => (.error (.notConst c.span), s)

/-- Span constants used by the concrete programs below. -/
def sp0 : Span := ⟨0, 0⟩

def spB : Span := ⟨1, 2⟩

def spL : Span := ⟨3, 4⟩

def spR : Span := ⟨5, 6⟩

/-- A binary node over two integer literals, with distinguishable spans on
the binary node and its operands. -/
def mkIntBinary (op : IrBinaryOp) (a b : Int) : Ir :=
  .mk sp0 (.binary (.mk spB op (.mk spL (.value (.integer a))) (.mk spR (.value (.integer b)))))

/-- Body of the probe loop: a scope whose single instruction is
`break (value 7)`. -/
def body0 : IrScope :=
  .mk sp0 [.mk sp0 (.brk (.mk spB (.value (.mk spL (.value (.integer 7))))))] none

/-- The probe loop: no label, no condition, body `body0`. -/
def l0 : IrLoop := .mk sp0 none none body0

/-- Claim C1: evaluating `Loop(cond: none, body: Scope { Break(value 7) })`
from an empty scope stack with budget 10 succeeds with `Integer 7` but
leaves TWO scope frames on the stack: `eval_ir_scope` propagates the break
through `?` without popping its frame (eval.rs line 308) and
`eval_ir_loop`'s `Break(Value)` arm returns `Ok(value)` before the pop at
line 281 (eval.rs lines 265-268), so the depth on return (2) differs from
the depth on entry (0) even on a successful return. -/
theorem c1_loop_break_leaks_scopes :
    evalGo ctx0 9 (.ir (.mk sp0 (.loop l0))) ⟨10, []⟩ =
      some (.ok (.integer 7), ⟨5, [[], []]⟩) ∧
    ([[], []] : List Frame).length ≠ ([] : List Frame).length :=
  ⟨rfl, by decide⟩

/-- Nodes evaluated through `eval_ir` in the `SimpleIr` fragment: value
literals and binary nodes. -/
inductive SimpleIr : Ir → Prop where
  | value : ∀ (sp : Span) (v : IrValue), SimpleIr (.mk sp (.value v))
  | binary : ∀ (sp : Span) (b : IrBinary),
      SimpleIr b.lhs → SimpleIr b.rhs → SimpleIr (.mk sp (.binary b))

/-- Budget units actually charged per node reached through `eval_ir`: one
for the `eval_ir` entry itself plus one more inside `eval_ir_binary`,
which charges again at its own entry (eval.rs line 79); a value literal
costs exactly the one entry charge. -/
def weightedCost : Ir → Nat
  | .mk _ (.binary (.mk _ _ lhs rhs)) => 2 + weightedCost lhs + weightedCost rhs
  | .mk _ _ => 1

/-- Claim C2, counterexample: `Binary(Add, Value 2, Value 3)` has three
nodes and each operand costs one unit wherever it is evaluated, yet a full
successful evaluation consumes FOUR units (10 → 6): the binary node is
charged twice, once in `eval_ir` (line 409) and once in `eval_ir_binary`
(line 79).  Consequently a budget of three — one per visited node, as the
claim demands — is exhausted before the right operand is reached. -/
theorem c2_single_charge_cx :
    evalGo ctx0 3 (.ir (mkIntBinary .add 2 3)) ⟨10, []⟩ =
      some (.ok (.integer 5), ⟨6, []⟩) ∧
    evalGo ctx0 1 (.ir (.mk spL (.value (.integer 2)))) ⟨10, []⟩ =
      some (.ok (.integer 2), ⟨9, []⟩) ∧
    evalGo ctx0 1 (.ir (.mk spR (.value (.integer 3)))) ⟨9, []⟩ =
      some (.ok (.integer 3), ⟨8, []⟩) ∧
    evalGo ctx0 3 (.ir (mkIntBinary .add 2 3)) ⟨3, []⟩ =
      some (.error (.error (IrError.msg spR ("budget exceeded"))), ⟨0, []⟩) ∧
    10 - 6 ≠ 3 :=
  ⟨rfl, rfl, rfl, rfl, by decide⟩

/-- Exact budget accounting on the value/binary fragment: a successful
`eval_ir` consumes exactly `weightedCost` units. -/
theorem simpleIr_budget (ctx : EvalCtx) (ir : Ir) (hs : SimpleIr ir) :
    ∀ (f : Nat) (s : EvalState) (v : IrValue) (s' : EvalState),
      evalGo ctx f (.ir ir) s = some (.ok v, s') →
      s.budget = s'.budget + weightedCost ir := by
  induction hs with
  | value sp v0 =>
    intro f s v s' he
    obtain ⟨B, SC⟩ := s
    match f with
    | 0 => simp [evalGo] at he
    | f + 1 =>
      match B with
      | 0 => simp [evalGo, budgetTake, Ir.span] at he
      | B + 1 =>
        simp [evalGo, budgetTake, Ir.span, Ir.kind] at he
        obtain ⟨hv, hs'⟩ := he
        subst hs'
        show B + 1 = B + weightedCost (Ir.mk sp (IrKind.value v0))
        have hw : weightedCost (Ir.mk sp (IrKind.value v0)) = 1 := by simp [weightedCost]
        omega
  | binary sp b hl hr ihl ihr =>
    intro f s v s' he
    obtain ⟨bsp, bop, blhs, brhs⟩ := b
    simp only [IrBinary.lhs, IrBinary.rhs] at ihl ihr
    obtain ⟨B, SC⟩ := s
    match f with
    | 0 => simp [evalGo] at he
    | f + 1 =>
      match B with
      | 0 => simp [evalGo, budgetTake, Ir.span] at he
      | B + 1 =>
        match B with
        | 0 => simp [evalGo, budgetTake, Ir.span, Ir.kind, IrBinary.span] at he
        | B + 1 =>
          simp only [evalGo, budgetTake, Ir.span, Ir.kind, IrBinary.span, IrBinary.lhs,
            IrBinary.rhs, IrBinary.op, Nat.succ_ne_zero, if_false, Nat.add_sub_cancel] at he
          rcases heq1 : evalGo ctx f (.ir blhs) ⟨B, SC⟩ with _ | ⟨r1, s2⟩ <;> rw [heq1] at he
          · simp at he
          · cases r1 with
            | error o => simp at he
            | ok a =>
              simp only [] at he
              rcases heq2 : evalGo ctx f (.ir brhs) s2 with _ | ⟨r2, s3⟩ <;> rw [heq2] at he
              · simp at he
              · cases r2 with
                | error o => simp at he
                | ok bv =>
                  simp only [Option.some.injEq, Prod.mk.injEq] at he
                  obtain ⟨hres, hs'⟩ := he
                  subst hs'
                  have e1 := ihl f ⟨B, SC⟩ a s2 heq1
                  have e2 := ihr f s2 bv s3 heq2
                  simp only at e1 e2
                  show B + 1 + 1 = s3.budget +
                    weightedCost (Ir.mk sp (IrKind.binary (IrBinary.mk bsp bop blhs brhs)))
                  have hw : weightedCost (Ir.mk sp (IrKind.binary (IrBinary.mk bsp bop blhs brhs)))
                      = 2 + weightedCost blhs + weightedCost brhs := by
                    simp [weightedCost]
                  omega

/-- Minimal probe nodes, one per `IrKind`, used to pin down the exact
entry charges of every dispatch arm. -/
def nName : Ir := .mk sp0 (.name "x")

def nTargetNode : Ir := .mk sp0 (.target ⟨spB, "x", []⟩)

def nBranchesEmpty : Ir := .mk sp0 (.branches (.mk spB [] none))

def nBreakInherent : Ir := .mk sp0 (.brk (.mk spB .inherent))

def nVecEmpty : Ir := .mk sp0 (.vec (.mk spB []))

def nTupleEmpty : Ir := .mk sp0 (.tuple (.mk spB []))

def nObjectEmpty : Ir := .mk sp0 (.object (.mk spB []))

def nCallNoArgs : Ir := .mk sp0 (.call (.mk spB "f" []))

def nScopeEmpty : Ir := .mk sp0 (.scope (.mk spB [] none))

def nTemplateEmpty : Ir := .mk sp0 (.template (.mk spB []))

def nDecl (v : IrValue) : Ir := .mk sp0 (.decl (.mk spB "x" (.mk spL (.value v))))

def nSet (w : IrValue) : Ir := .mk sp0 (.set (.mk spB ⟨spR, "x", []⟩ (.mk spL (.value w))))

def nAssign (b : Int) : Ir :=
  .mk sp0 (.assign (.mk spB ⟨spR, "x", []⟩ .add (.mk spL (.value (.integer b)))))

def nLoopFalse : Ir :=
  .mk sp0 (.loop (.mk spB none (some (.ir (.mk spL (.value (.bool false))))) (.mk spR [] none)))

/-- Claim C2 (amended), covering every `IrKind`: (1) with zero budget every
node fails at its own span before anything else — the `eval_ir` entry
charge comes first; (2) on the value/binary fragment a successful
evaluation consumes exactly `weightedCost`; (3-11) a value, name, target,
branches, break, vec, tuple, object and call node costs exactly the one
entry unit (the call then hands the post-charge state to
`call_const_fn`); (12-18) a scope and a template node cost exactly two
units, a decl, set and assign node two units plus their value child, a
conditional loop two units plus its condition, and a binary node two
units plus its operands; (19-25) with exactly one budget unit each of the
seven double-charging kinds fails at its HELPER's span with the scope
stack untouched — the helper's charge precedes every descent into
children. -/
theorem c2_per_kind_budget (ctx : EvalCtx) (f : Nat) :
    (∀ (ir : Ir) (SC : List Frame),
      evalGo ctx (f + 1) (.ir ir) ⟨0, SC⟩ =
        some (.error (.error (IrError.msg ir.span ("budget exceeded"))), ⟨0, SC⟩)) ∧
    (∀ (ir : Ir), SimpleIr ir →
      ∀ (f' : Nat) (s : EvalState) (v : IrValue) (s' : EvalState),
        evalGo ctx f' (.ir ir) s = some (.ok v, s') →
        s.budget = s'.budget + weightedCost ir) ∧
    (∀ (v : IrValue) (k : Nat) (SC : List Frame),
      evalGo ctx (f + 1) (.ir (Ir.mk sp0 (.value v))) ⟨k + 1, SC⟩ =
        some (.ok v, ⟨k, SC⟩)) ∧
    (∀ (v : IrValue) (k : Nat) (SC : List Frame),
      evalGo ctx (f + 1) (.ir nName) ⟨k + 1, [("x", v)] :: SC⟩ =
        some (.ok v, ⟨k, [("x", v)] :: SC⟩)) ∧
    (∀ (v : IrValue) (k : Nat) (SC : List Frame),
      evalGo ctx (f + 1) (.ir nTargetNode) ⟨k + 1, [("x", v)] :: SC⟩ =
        some (.ok v, ⟨k, [("x", v)] :: SC⟩)) ∧
    (∀ (k : Nat) (SC : List Frame),
      evalGo ctx (f + 1) (.ir nBranchesEmpty) ⟨k + 1, SC⟩ = some (.ok .unit, ⟨k, SC⟩)) ∧
    (∀ (k : Nat) (SC : List Frame),
      evalGo ctx (f + 1) (.ir nBreakInherent) ⟨k + 1, SC⟩ =
        some (.error (.brk spB .inherent), ⟨k, SC⟩)) ∧
    (∀ (k : Nat) (SC : List Frame),
      evalGo ctx (f + 1) (.ir nVecEmpty) ⟨k + 1, SC⟩ = some (.ok (.vec []), ⟨k, SC⟩)) ∧
    (∀ (k : Nat) (SC : List Frame),
      evalGo ctx (f + 1) (.ir nTupleEmpty) ⟨k + 1, SC⟩ = some (.ok (.tuple []), ⟨k, SC⟩)) ∧
    (∀ (k : Nat) (SC : List Frame),
      evalGo ctx (f + 1) (.ir nObjectEmpty) ⟨k + 1, SC⟩ = some (.ok (.object []), ⟨k, SC⟩)) ∧
    (∀ (k : Nat) (SC : List Frame),
      evalGo ctx (f + 1) (.ir nCallNoArgs) ⟨k + 1, SC⟩ =
        some ((ctx.callConstFn (.mk spB "f" []) [] ⟨k, SC⟩).1,
          (ctx.callConstFn (.mk spB "f" []) [] ⟨k, SC⟩).2)) ∧
    (∀ (k : Nat),
      evalGo ctx (f + 2) (.ir nScopeEmpty) ⟨k + 2, []⟩ = some (.ok .unit, ⟨k, []⟩)) ∧
    (∀ (k : Nat) (SC : List Frame),
      evalGo ctx (f + 1) (.ir nTemplateEmpty) ⟨k + 2, SC⟩ =
        some (.ok (.string ""), ⟨k, SC⟩)) ∧
    (∀ (v : IrValue) (k : Nat) (SC : List Frame),
      evalGo ctx (f + 2) (.ir (nDecl v)) ⟨k + 3, [] :: SC⟩ =
        some (.ok .unit, ⟨k, [("x", v)] :: SC⟩)) ∧
    (∀ (v w : IrValue) (k : Nat) (SC : List Frame),
      evalGo ctx (f + 2) (.ir (nSet w)) ⟨k + 3, [("x", v)] :: SC⟩ =
        some (.ok .unit, ⟨k, [("x", w)] :: SC⟩)) ∧
    (∀ (a b : Int) (k : Nat) (SC : List Frame),
      evalGo ctx (f + 2) (.ir (nAssign b)) ⟨k + 3, [("x", .integer a)] :: SC⟩ =
        some (.ok .unit, ⟨k, [("x", .integer (a + b))] :: SC⟩)) ∧
    (∀ (k : Nat),
      evalGo ctx (f + 4) (.ir nLoopFalse) ⟨k + 3, []⟩ = some (.ok .unit, ⟨k, []⟩)) ∧
    (∀ (a b : Int) (k : Nat) (SC : List Frame),
      evalGo ctx (f + 2) (.ir (mkIntBinary .add a b)) ⟨k + 4, SC⟩ =
        some (.ok (.integer (a + b)), ⟨k, SC⟩)) ∧
    (∀ (SC : List Frame),
      evalGo ctx (f + 2) (.ir nScopeEmpty) ⟨1, SC⟩ =
        some (.error (.error (IrError.msg spB ("budget exceeded"))), ⟨0, SC⟩)) ∧
    (∀ (a b : Int) (SC : List Frame),
      evalGo ctx (f + 2) (.ir (mkIntBinary .add a b)) ⟨1, SC⟩ =
        some (.error (.error (IrError.msg spB ("budget exceeded"))), ⟨0, SC⟩)) ∧
    (∀ (v : IrValue) (SC : List Frame),
      evalGo ctx (f + 2) (.ir (nDecl v)) ⟨1, SC⟩ =
        some (.error (.error (IrError.msg spB ("budget exceeded"))), ⟨0, SC⟩)) ∧
    (∀ (w : IrValue) (SC : List Frame),
      evalGo ctx (f + 2) (.ir (nSet w)) ⟨1, SC⟩ =
        some (.error (.error (IrError.msg spB ("budget exceeded"))), ⟨0, SC⟩)) ∧
    (∀ (b : Int) (SC : List Frame),
      evalGo ctx (f + 2) (.ir (nAssign b)) ⟨1, SC⟩ =
        some (.error (.error (IrError.msg spB ("budget exceeded"))), ⟨0, SC⟩)) ∧
    (∀ (SC : List Frame),
      evalGo ctx (f + 2) (.ir nTemplateEmpty) ⟨1, SC⟩ =
        some (.error (.error (IrError.msg spB ("budget exceeded"))), ⟨0, SC⟩)) ∧
    (∀ (SC : List Frame),
      evalGo ctx (f + 2) (.ir nLoopFalse) ⟨1, SC⟩ =
        some (.error (.error (IrError.msg spB ("budget exceeded"))), ⟨0, SC⟩)) := by
  refine ⟨fun ir SC => rfl, fun ir hs => simpleIr_budget ctx ir hs,
    fun v k SC => rfl, fun v k SC => rfl, fun v k SC => rfl, fun k SC => rfl,
    fun k SC => rfl, fun k SC => rfl, fun k SC => rfl, fun k SC => rfl,
    ?_, fun k => rfl, fun k SC => rfl, fun v k SC => rfl, fun v w k SC => rfl,
    fun a b k SC => rfl, fun k => rfl, fun a b k SC => rfl, fun SC => rfl,
    fun a b SC => rfl, fun v SC => rfl, fun w SC => rfl, fun b SC => rfl,
    fun SC => rfl, fun SC => rfl⟩
  intro k SC
  have hred : evalGo ctx (f + 1) (.ir nCallNoArgs) ⟨k + 1, SC⟩ =
      (match ctx.callConstFn (.mk spB "f" []) [] ⟨k, SC⟩ with
       | (.error o, s) => some (.error o, s)
       | (.ok v, s) => some (.ok v, s)) := rfl
  rw [hred]
  rcases hcc : ctx.callConstFn (.mk spB "f" []) [] ⟨k, SC⟩ with ⟨r, s2⟩
  cases r <;> rfl

/-- Witness for C2 (amended): a value node costs exactly one unit, the
concrete addition consumes 10 − 6 = 4 units matching `weightedCost` of its
tree, and with a single budget unit the binary helper's own charge fails
before either operand is visited. -/
theorem c2_per_kind_budget_witness :
    evalGo ctx0 (0 + 1) (.ir (Ir.mk sp0 (.value (.integer 5)))) ⟨9 + 1, []⟩ =
      some (.ok (.integer 5), ⟨9, []⟩) ∧
    (10 : Nat) = 6 + weightedCost (mkIntBinary .add 2 3) ∧
    evalGo ctx0 (0 + 2) (.ir (mkIntBinary .add 2 3)) ⟨1, []⟩ =
      some (.error (.error (IrError.msg spB ("budget exceeded"))), ⟨0, []⟩) := by
  obtain ⟨h1, h2, h3, h4, h5, h6, h7, h8, h9, h10, h11, h12, h13, h14, h15, h16, h17,
    h18, h19, h20, h21, h22, h23, h24, h25⟩ := c2_per_kind_budget ctx0 0
  refine ⟨h3 (.integer 5) 9 [], ?_, h20 2 3 []⟩
  exact h2 (mkIntBinary .add 2 3)
    (SimpleIr.binary sp0 (.mk spB .add (.mk spL (.value (.integer 2)))
      (.mk spR (.value (.integer 3))))
      (SimpleIr.value spL (.integer 2)) (SimpleIr.value spR (.integer 3)))
    3 ⟨10, []⟩ (.integer 5) ⟨6, []⟩ rfl

/-- Claim C3: when the body of a `Loop` raises `Break` with a carried value
`v` (here: on the first iteration), the loop returns `Ok(v)` if it has no
condition, and an `Error` outcome — not a value and not a re-raised break —
if it has a condition (eval.rs lines 265-274). -/
theorem c3_loop_break_value (ctx : EvalCtx) (f : Nat) (l : IrLoop) (sp bs : Span) (v : IrValue)
    (s s1 : EvalState) (hb : 2 ≤ s.budget) :
    (l.condition = none →
      evalGo ctx f (.scope l.body) ⟨s.budget - 1 - 1, [] :: s.scopes⟩ =
        some (.error (.brk bs (.value v)), s1) →
      evalGo ctx (f + 2) (.ir (.mk sp (.loop l))) s = some (.ok v, s1)) ∧
    (∀ (c : IrCondition) (s2 : EvalState),
      l.condition = some c →
      evalGo ctx f (.cond c) ⟨s.budget - 1 - 1, [] :: s.scopes⟩ = some (.ok (.bool true), s2) →
      evalGo ctx f (.scope l.body) s2 = some (.error (.brk bs (.value v)), s1) →
      evalGo ctx (f + 2) (.ir (.mk sp (.loop l))) s =
        some (.error (.error (IrError.msg bs
          ("break with value is not supported for unconditional loops"))), s1)) := by
  obtain ⟨B, SC⟩ := s
  simp only at hb
  obtain ⟨B', rfl⟩ : ∃ k, B = k + 2 := ⟨B - 2, by omega⟩
  have hnorm : B' + 2 - 1 - 1 = B' := rfl
  constructor
  · intro hcnone hbody
    simp only [hnorm] at hbody
    simp only [evalGo, Ir.span, Ir.kind, budgetTake, IrLoop.span, scopesPush]
    norm_num
    rw [hcnone]
    simp only []
    rw [hbody]
    simp only [loopAfterBody]
    rw [hcnone]
    simp [Option.isNone]
  · intro c s2 hcsome hcond hbody
    simp only [hnorm] at hcond
    simp only [evalGo, Ir.span, Ir.kind, budgetTake, IrLoop.span, scopesPush]
    norm_num
    rw [hcsome]
    simp only [scopesClearCurrent]
    rw [hcond]
    simp only [asBool]
    rw [hbody]
    simp only [loopAfterBody]
    rw [hcsome]
    simp [Option.isNone]

/-- Witness for C3: the probe loop (no condition) whose body breaks with
`Integer 7` returns `Ok(Integer 7)`. -/
theorem c3_loop_break_value_witness :
    evalGo ctx0 (5 + 2) (.ir (.mk sp0 (.loop l0))) ⟨10, []⟩ =
      some (.ok (.integer 7), ⟨5, [[], []]⟩) :=
  (c3_loop_break_value ctx0 5 l0 sp0 spB (.integer 7) ⟨10, []⟩ ⟨5, [[], []]⟩
    (by decide)).1 rfl rfl

/-- Claim C6: `Binary(Div)` on two integers returns the error message
`division by zero` (at the binary node's span) when the divisor is zero
and the checked (truncating) quotient otherwise (eval.rs lines 95-100). -/
theorem c6_integer_division (ctx : EvalCtx) (a b : Int) (f : Nat) (s : EvalState)
    (h : 4 ≤ s.budget) :
    evalGo ctx (f + 2) (.ir (mkIntBinary .div a b)) s =
      some ((if b = 0 then .error (.error (IrError.msg spB ("division by zero")))
             else .ok (.integer (Int.tdiv a b))),
            { s with budget := s.budget - 4 }) := by
  obtain ⟨B, SC⟩ := s
  simp only at h
  obtain ⟨k, rfl⟩ : ∃ k, B = k + 4 := ⟨B - 4, by omega⟩
  rfl

/-- Witness for C6: `1 / 0` errors with `division by zero`. -/
theorem c6_integer_division_witness :
    evalGo ctx0 2 (.ir (mkIntBinary .div 1 0)) ⟨10, []⟩ =
      some (.error (.error (IrError.msg spB ("division by zero"))), ⟨6, []⟩) := by
  have h := c6_integer_division ctx0 1 0 0 ⟨10, []⟩ (by decide)
  simpa using h

/-- Claim C7: the right operand of an integer shift must fit in a 32-bit
unsigned integer: any operand in `0..=2^32 − 1` is accepted and the
shifted integer returned, anything outside (negative, or ≥ 2^32) errors at
the right operand's span (eval.rs lines 101-114, `u32::try_from`). -/
theorem c7_shift_operand_range (ctx : EvalCtx) (a b : Int) (f : Nat) (s : EvalState)
    (h : 4 ≤ s.budget) :
    (evalGo ctx (f + 2) (.ir (mkIntBinary .shl a b)) s =
      some ((if 0 ≤ b ∧ b < 4294967296 then .ok (.integer (intShl a b.toNat))
             else .error (.error (IrError.msg spR ("cannot be converted to shift operand")))),
            { s with budget := s.budget - 4 })) ∧
    (evalGo ctx (f + 2) (.ir (mkIntBinary .shr a b)) s =
      some ((if 0 ≤ b ∧ b < 4294967296 then .ok (.integer (intShr a b.toNat))
             else .error (.error (IrError.msg spR ("cannot be converted to shift operand")))),
            { s with budget := s.budget - 4 })) := by
  obtain ⟨B, SC⟩ := s
  simp only at h
  obtain ⟨k, rfl⟩ : ∃ k, B = k + 4 := ⟨B - 4, by omega⟩
  exact ⟨rfl, rfl⟩

/-- Witness for C7: `3 << 1` is accepted, `3 << 2^32` is rejected. -/
theorem c7_shift_operand_range_witness :
    evalGo ctx0 2 (.ir (mkIntBinary .shl 3 1)) ⟨10, []⟩ =
      some (.ok (.integer 6), ⟨6, []⟩) ∧
    evalGo ctx0 2 (.ir (mkIntBinary .shl 3 4294967296)) ⟨10, []⟩ =
      some (.error (.error (IrError.msg spR ("cannot be converted to shift operand"))),
        ⟨6, []⟩) := by
  have h1 := (c7_shift_operand_range ctx0 3 1 0 ⟨10, []⟩ (by decide)).1
  have h2 := (c7_shift_operand_range ctx0 3 4294967296 0 ⟨10, []⟩ (by decide)).1
  constructor
  · simpa [intShl] using h1
  · simpa using h2

/-- A binary node over two value literals. -/
def mkValBinary (op : IrBinaryOp) (a b : IrValue) : Ir :=
  .mk sp0 (.binary (.mk spB op (.mk spL (.value a)) (.mk spR (.value b))))

/-- The operand/operator combinations the specification permits for
`Binary`: integers with every operator, floats with arithmetic and
comparisons (no shifts), strings with `Add` only. -/
def permittedBinary (a b : IrValue) (op : IrBinaryOp) : Bool :=
  match a, b, op with
  | .integer _, .integer _, _ => true
  | .float _, .float _, .add => true
  | .float _, .float _, .sub => true
  | .float _, .float _, .mul => true
  | .float _, .float _, .div => true
  | .float _, .float _, .lt => true
  | .float _, .float _, .lte => true
  | .float _, .float _, .eq => true
  | .float _, .float _, .gt => true
  | .float _, .float _, .gte => true
  | .string _, .string _, .add => true
  | _, _, _ => false

theorem irBinaryOpEval_notConst (ctx : EvalCtx) (sp rsp : Span) (op : IrBinaryOp)
    (a b : IrValue) (h : permittedBinary a b op = false) :
    irBinaryOpEval ctx sp rsp op a b = .error (.notConst sp) := by
  cases a <;> cases b <;> cases op <;> simp_all [permittedBinary, irBinaryOpEval]

/-- Claim C8: every binary node whose evaluated operand pair and operator
are not among the permitted combinations — in particular floats under
`Shl`/`Shr` and every mixed-type pair — evaluates to `NotConst` carrying
the binary node's span, not an `Error` (eval.rs lines 84-144). -/
theorem c8_binary_not_const (ctx : EvalCtx) (op : IrBinaryOp) (a b : IrValue) (f : Nat)
    (s : EvalState) (h4 : 4 ≤ s.budget) (hnp : permittedBinary a b op = false) :
    evalGo ctx (f + 2) (.ir (mkValBinary op a b)) s =
      some (.error (.notConst spB), { s with budget := s.budget - 4 }) := by
  obtain ⟨B, SC⟩ := s
  simp only at h4
  obtain ⟨k, rfl⟩ : ∃ k, B = k + 4 := ⟨B - 4, by omega⟩
  have hred : evalGo ctx (f + 2) (.ir (mkValBinary op a b)) ⟨k + 4, SC⟩ =
      some (irBinaryOpEval ctx spB spR op a b, ⟨k, SC⟩) := rfl
  rw [hred, irBinaryOpEval_notConst ctx spB spR op a b hnp]
  rfl

/-- Witness for C8: `Float << Float` is `NotConst` at the binary's span. -/
theorem c8_binary_not_const_witness :
    evalGo ctx0 2 (.ir (mkValBinary .shl (.float ⟨0⟩) (.float ⟨0⟩))) ⟨10, []⟩ =
      some (.error (.notConst spB), ⟨6, []⟩) := by
  have h := c8_binary_not_const ctx0 .shl (.float ⟨0⟩) (.float ⟨0⟩) 0 ⟨10, []⟩
    (by decide) rfl
  simpa using h

/-- The last value bound to a key by an ordered assignment list. -/
def lastAssoc (ps : List (String × IrValue)) (k : String) : Option IrValue :=
  frameGet k ps.reverse

/-- The object that repeated `insert`s of the assignment list build up. -/
def objectFold (ps : List (String × IrValue)) : List (String × IrValue) :=
  List.foldl (fun m p => frameDecl p.1 p.2 m) [] ps

theorem frameGet_frameDecl (k n : String) (v : IrValue) (m : Frame) :
    frameGet k (frameDecl n v m) = if n = k then some v else frameGet k m := by
  induction m with
  | nil => simp [frameDecl, frameGet]
  | cons hd tl ih =>
    obtain ⟨a, w⟩ := hd
    simp only [frameDecl, frameGet]
    split_ifs <;> simp_all [frameGet]

theorem frameGet_append (k : String) (l1 l2 : Frame) :
    frameGet k (l1 ++ l2) = (frameGet k l1).or (frameGet k l2) := by
  induction l1 with
  | nil => simp [frameGet]
  | cons hd tl ih =>
    obtain ⟨a, w⟩ := hd
    by_cases hak : a = k <;> simp [frameGet, hak, ih]

theorem lastAssoc_cons (p : String × IrValue) (ps : List (String × IrValue)) (k : String) :
    lastAssoc (p :: ps) k = (lastAssoc ps k).or (if p.1 = k then some p.2 else none) := by
  obtain ⟨a, w⟩ := p
  simp [lastAssoc, frameGet_append, frameGet]

theorem foldl_frameDecl_get (ps : List (String × IrValue)) (k : String) :
    ∀ acc, frameGet k (List.foldl (fun m p => frameDecl p.1 p.2 m) acc ps) =
      (lastAssoc ps k).or (frameGet k acc) := by
  induction ps with
  | nil =>
    intro acc
    simp [lastAssoc, frameGet]
  | cons p ps ih =>
    intro acc
    obtain ⟨a, w⟩ := p
    simp only [List.foldl]
    rw [ih, lastAssoc_cons]
    cases hl : lastAssoc ps k <;> by_cases hak : a = k <;>
      simp [Option.or, hak, frameGet_frameDecl]

theorem keys_frameDecl_mem (x n : String) (v : IrValue) (m : Frame) :
    x ∈ (frameDecl n v m).map Prod.fst ↔ x = n ∨ x ∈ m.map Prod.fst := by
  induction m with
  | nil => simp [frameDecl]
  | cons hd tl ih =>
    obtain ⟨a, w⟩ := hd
    by_cases han : a = n
    · subst han
      simp [frameDecl]
    · simp [frameDecl, han, ih]
      tauto

theorem keys_frameDecl_nodup (n : String) (v : IrValue) (m : Frame)
    (h : (m.map Prod.fst).Nodup) : ((frameDecl n v m).map Prod.fst).Nodup := by
  induction m with
  | nil => simp [frameDecl]
  | cons hd tl ih =>
    obtain ⟨a, w⟩ := hd
    simp only [List.map, List.nodup_cons] at h
    obtain ⟨hna, hnd⟩ := h
    by_cases han : a = n
    · subst han
      simp only [frameDecl, if_pos rfl, List.map, List.nodup_cons]
      exact ⟨hna, hnd⟩
    · simp only [frameDecl, if_neg han, List.map, List.nodup_cons]
      constructor
      · intro hmem
        rw [keys_frameDecl_mem] at hmem
        rcases hmem with h1 | h2
        · exact han h1
        · exact hna h2
      · exact ih hnd

theorem foldl_frameDecl_nodup (ps : List (String × IrValue)) :
    ∀ acc : Frame, ((acc.map Prod.fst).Nodup) →
      ((List.foldl (fun m p => frameDecl p.1 p.2 m) acc ps).map Prod.fst).Nodup := by
  induction ps with
  | nil =>
    intro acc h
    simpa using h
  | cons p ps ih =>
    intro acc h
    exact ih _ (keys_frameDecl_nodup p.1 p.2 acc h)

theorem evalObjectLit (ctx : EvalCtx) (f : Nat) (ps : List (String × IrValue)) :
    ∀ (acc : Frame) (s : EvalState),
      ps.length ≤ s.budget →
      evalObjectAssignments (fun i s => evalGo ctx (f + 1) (.ir i) s)
        (ps.map (fun p => (p.1, Ir.mk spL (.value p.2)))) acc s =
        some (.ok (List.foldl (fun m p => frameDecl p.1 p.2 m) acc ps),
          { s with budget := s.budget - ps.length }) := by
  induction ps with
  | nil =>
    intro acc s h
    simp [evalObjectAssignments]
  | cons p ps ih =>
    intro acc s h
    obtain ⟨a, w⟩ := p
    obtain ⟨B, SC⟩ := s
    simp only [List.length_cons] at h
    obtain ⟨k, rfl⟩ : ∃ k, B = k + 1 := ⟨B - 1, by omega⟩
    simp only [List.map, evalObjectAssignments]
    have hval : evalGo ctx (f + 1) (.ir (Ir.mk spL (.value w))) ⟨k + 1, SC⟩ =
        some (.ok w, ⟨k, SC⟩) := rfl
    rw [hval]
    simp only [List.foldl]
    rw [ih (frameDecl a w acc) ⟨k, SC⟩ (by simp only []; omega)]
    have h2 : k + 1 - (ps.length + 1) = k - ps.length := by omega
    simp [h2]

/-- Claim C10: an `Object` node whose assignments repeat keys still
evaluates successfully; every value expression is evaluated in source
order (the budget drops by one per entry, duplicates included, plus one
for the node), and the resulting object holds exactly one entry per
distinct key — the `insert` of a repeated key overwrites — bound to the
value of the key's LAST occurrence. -/
theorem c10_object_duplicate_keys (ctx : EvalCtx) (f : Nat) (ps : List (String × IrValue))
    (s : EvalState) (h : ps.length + 1 ≤ s.budget) :
    (evalGo ctx (f + 2)
        (.ir (.mk sp0 (.object (.mk spB (ps.map (fun p => (p.1, Ir.mk spL (.value p.2)))))))) s =
      some (.ok (.object (objectFold ps)), { s with budget := s.budget - (ps.length + 1) })) ∧
    (∀ k, frameGet k (objectFold ps) = lastAssoc ps k) ∧
    (((objectFold ps).map Prod.fst).Nodup) := by
  obtain ⟨B, SC⟩ := s
  simp only at h
  obtain ⟨K, rfl⟩ : ∃ K, B = K + 1 := ⟨B - 1, by omega⟩
  refine ⟨?_, ?_, ?_⟩
  · have hstep : evalGo ctx (f + 2)
        (.ir (.mk sp0 (.object (.mk spB
          (ps.map (fun p => (p.1, Ir.mk spL (.value p.2)))))))) ⟨K + 1, SC⟩ =
        (match evalObjectAssignments (fun i s => evalGo ctx (f + 1) (.ir i) s)
            (ps.map (fun p => (p.1, Ir.mk spL (.value p.2)))) [] ⟨K, SC⟩ with
         | none => none
         | some (.error o, s) => some (.error o, s)
         | some (.ok entries, s) => some (.ok (.object entries), s)) := rfl
    rw [hstep, evalObjectLit ctx f ps [] ⟨K, SC⟩ (by simp only []; omega)]
    have h2 : K + 1 - (ps.length + 1) = K - ps.length := by omega
    simp [h2, objectFold]
  · intro k
    rw [objectFold, foldl_frameDecl_get]
    cases hl : lastAssoc ps k <;> simp [Option.or, frameGet]
  · exact foldl_frameDecl_nodup ps [] (by simp)

/-- Witness for C10: the object `{a: 1, b: 2, a: 3}` evaluates, consumes
one budget unit per entry (duplicates included) plus one, and its `a`
entry holds the LAST value `3`. -/
theorem c10_object_duplicate_keys_witness :
    evalGo ctx0 (0 + 2)
        (.ir (.mk sp0 (.object (.mk spB
          (([(("a" : String), IrValue.integer 1), ("b", IrValue.integer 2),
            ("a", IrValue.integer 3)]).map (fun p => (p.1, Ir.mk spL (.value p.2))))))))
        ⟨10, []⟩ =
      some (.ok (.object (objectFold [(("a" : String), IrValue.integer 1),
        ("b", IrValue.integer 2), ("a", IrValue.integer 3)])), ⟨6, []⟩) ∧
    frameGet "a" (objectFold [(("a" : String), IrValue.integer 1),
      ("b", IrValue.integer 2), ("a", IrValue.integer 3)]) = some (.integer 3) := by
  have h := c10_object_duplicate_keys ctx0 0
    [("a", .integer 1), ("b", .integer 2), ("a", .integer 3)] ⟨10, []⟩ (by decide)
  refine ⟨by simpa using h.1, (h.2.1 "a").trans ?_⟩
  rfl
